import Mathlib

/-!
Shallow embedding of the CT image segmentation pipeline
(`utils.py`, `segment_lungs.py`, `segment_vessels.py`).

Conventions of the embedding:
* CT intensities, contour coordinates and pixel spacings are modelled as
  exact rationals (`ℚ`).  The Python code computes with IEEE floats; every
  operation that the claims touch (clipping, comparison, multiplication,
  squared-distance tests) is exact on the inputs appearing here, so `ℚ`
  is a faithful model of the float values.
* 2-D numpy arrays are modelled either as `List (List ℚ)` (row-major) or,
  where point updates are needed, as functions `Fin m → Fin n → ℚ`.
* Calls into external libraries (scipy's `ConvexHull`, PIL's polygon
  rasterizer) are modelled from their documented behaviour; each such
  definition carries a comment saying exactly what it models.
* Python exceptions become `Except PyError`; code that cannot raise stays
  pure.
-/

set_option autoImplicit false

/-- Errors that the external libraries used by `utils.py` can raise.
`qhullNotEnoughPoints` and `qhullFlat` model `scipy.spatial.QhullError`
(raised by `ConvexHull` on fewer than 3 input points, resp. on an
affinely flat / collinear point set); `pilTooFewCoords` models the
error PIL's `ImageDraw.polygon` raises when given fewer than 2
coordinates.  The repository defines no exception classes of its own
and contains no `try`/`except`. -/
inductive PyError where
  | qhullNotEnoughPoints : PyError
  | qhullFlat : PyError
  | pilTooFewCoords : PyError
deriving DecidableEq

/-- A contour point: `skimage.measure.find_contours` produces 2-D float
coordinates; modelled as a pair of rationals. -/
abbrev Point : Type := ℚ × ℚ

/-- A contour is an ordered list of 2-D points (`numpy` array of shape
`(k, 2)` in the Python code). -/
abbrev Contour : Type := List Point

/-- Cross product of vectors `o→a` and `o→b`; used by the monotone-chain
convex hull below. -/
def cross2 (o a b : Point) : ℚ :=
  (a.1 - o.1) * (b.2 - o.2) - (a.2 - o.2) * (b.1 - o.1)

/-- Lexicographic order on points, the sorting order of the
monotone-chain hull construction. -/
def lexLe (p q : Point) : Prop :=
  p.1 < q.1 ∨ (p.1 = q.1 ∧ p.2 ≤ q.2)

instance : DecidableRel lexLe := fun p q => by
  unfold lexLe; infer_instance

/-- One step of the monotone-chain construction: push `p` onto the hull
stack (head = most recently added point), popping points that would
make a non-left turn. -/
def chainStep : List Point → Point → List Point
  | b :: a :: rest, p =>
    if cross2 a b p ≤ 0 then chainStep (a :: rest) p else p :: b :: a :: rest
  | l, p => p :: l

/-- Half (lower or upper) hull of an ordered point list. -/
def halfHull (pts : List Point) : List Point :=
  pts.foldl chainStep []

/-- Convex hull of a point set by Andrew's monotone chain, returned in
counterclockwise order.  This is the exact-arithmetic counterpart of the
hull that `scipy.spatial.ConvexHull` computes with qhull. -/
def monotoneChainHull (pts : List Point) : List Point :=
  let sorted := List.insertionSort lexLe pts
  let lower := halfHull sorted
  let upper := halfHull sorted.reverse
  lower.reverse.dropLast ++ upper.reverse.dropLast

/-- Twice the signed area of the polygon `p0 :: rest`, accumulated
edge by edge (shoelace formula); the cycle is closed at the caller by
passing the first vertex again at the front of the list. -/
def shoelace (p0 : Point) : List Point → ℚ
  | [] => 0
  | [p] => p.1 * p0.2 - p0.1 * p.2
  | p :: q :: rest => (p.1 * q.2 - q.1 * p.2) + shoelace p0 (q :: rest)

/-- Area of the convex hull of a point set (0 when the set is degenerate). -/
def hullArea (pts : List Point) : ℚ :=
  match monotoneChainHull pts with
  | [] => 0
  | p0 :: rest => |shoelace p0 (p0 :: rest)| / 2

/-- Models `scipy.spatial.ConvexHull(contour).volume` as it is used in
`Lung.find_lung_contours` (utils.py line 151/153).  In 2-D, qhull's
`volume` is the hull's area.  `ConvexHull` raises a `QhullError` when
given fewer than 3 points, or when all points are collinear (flat
input); both are modelled as `Except.error`. -/
def convexHullVolume (contour : Contour) : Except PyError ℚ :=
  if contour.length < 3 then .error .qhullNotEnoughPoints
  else
    let a := hullArea contour
    if a = 0 then .error .qhullFlat else .ok a

/-- Embeds `Lung.is_closed_contour` (utils.py line 126): a contour is closed iff
its first and last points are equal (`np.array_equal(contour[0],
contour[-1])`; the Python code indexes `[0]`/`[-1]`, so contours are
assumed nonempty there — on `[]` this model returns `true` while the
Python would raise `IndexError`; no claim involves an empty contour). -/
def is_closed_contour (contour : Contour) : Bool :=
  decide (contour.head? = contour.getLast?)

/-- The filtering comprehension of `Lung.find_lung_contours` (utils.py
lines 150-154): walk the contour list in order, compute each contour's
convex-hull volume (raising out of the whole call on the first
degenerate contour, exactly as the uncaught `QhullError` does in
Python), and keep `(contour, volume)` pairs with
`volume > min_volume and is_closed_contour(contour)`. -/
def selectContours (min_volume : ℚ) : List Contour → Except PyError (List (Contour × ℚ))
  | [] => .ok []
  | c :: rest =>
    match convexHullVolume c with
    | .error e => .error e
    | .ok v =>
      match selectContours min_volume rest with
      | .error e => .error e
      | .ok s =>
        .ok (if min_volume < v ∧ is_closed_contour c then (c, v) :: s else s)

/-- Embeds `Lung.find_lung_contours` (utils.py lines 138-162): select qualifying
contours; if more than 2 qualify, sort ascending by hull volume
(`list.sort` is stable; `insertionSort` with `≤` on the volume is the
stable ascending sort) and drop the last (largest) one; otherwise return
the qualifying contours as they are. -/
def find_lung_contours (contours : List Contour) (min_volume : ℚ := 2000) :
    Except PyError (List Contour) :=
  match selectContours min_volume contours with
  | .error e => .error e
  | .ok selected =>
    if 2 < selected.length then
      .ok (((List.insertionSort (fun a b => a.2 ≤ b.2) selected).dropLast).map Prod.fst)
    else
      .ok (selected.map Prod.fst)

/-- The hull volume a contour would report, defaulting to 0 on the
degenerate (error) case; used only to state claims about
`find_lung_contours`. -/
def hullVol (c : Contour) : ℚ :=
  ((convexHullVolume c).toOption).getD 0

/-- A contour qualifies for lung selection when its hull volume exceeds
`min_volume` and it is closed — the retention test of
`Lung.find_lung_contours`. -/
def qualifies (min_volume : ℚ) (c : Contour) : Bool :=
  decide (min_volume < hullVol c) && is_closed_contour c

/-- The sublist of qualifying contours, in input order. -/
def qualifying (min_volume : ℚ) (contours : List Contour) : List Contour :=
  contours.filter (qualifies min_volume)

/-- Models `np.clip(x, lo, hi)`: numpy clips as `minimum(hi, maximum(x, lo))`,
so for `lo > hi` every output equals `hi`. -/
def np_clip (x lo hi : ℚ) : ℚ :=
  min hi (max lo x)

/-- Embeds `Lung.clip_and_binarize_ct` (utils.py lines 106-124): clip the CT
values to `[lower_bound, upper_bound]`, then map each pixel to 1 where
the clipped value equals `upper_bound` and to 0 elsewhere
(`np.where(clipped_image == upper_bound, 1, 0)`). -/
def clip_and_binarize_ct (ct_numpy : List (List ℚ)) (lower_bound upper_bound : ℚ) :
    List (List ℚ) :=
  ct_numpy.map (List.map (fun v =>
    if np_clip v lower_bound upper_bound = upper_bound then 1 else 0))

/-- The edge list of a closed polygon: consecutive vertex pairs plus the
closing edge from the last vertex back to the first. -/
def polygonEdges (poly : List Point) : List (Point × Point) :=
  match poly with
  | [] => []
  | p0 :: _ => poly.zip (poly.drop 1 ++ [p0])

/-- Whether point `q` lies on the closed segment from `a` to `b`. -/
def onSegment (q : Point) (a b : Point) : Bool :=
  decide (cross2 a b q = 0 ∧ min a.1 b.1 ≤ q.1 ∧ q.1 ≤ max a.1 b.1 ∧
    min a.2 b.2 ≤ q.2 ∧ q.2 ≤ max a.2 b.2)

/-- Even-odd ray-crossing test: does the horizontal ray from `q` to the
left cross the edge `(a, b)`? -/
def edgeCrossesRay (q : Point) (a b : Point) : Bool :=
  decide (((a.2 ≤ q.2 ∧ q.2 < b.2) ∨ (b.2 ≤ q.2 ∧ q.2 < a.2)) ∧
    q.1 < a.1 + (q.2 - a.2) * (b.1 - a.1) / (b.2 - a.2))

/-- The value PIL's `ImageDraw.polygon(polygon_tuple, outline=0, fill=1)`
leaves at integer pixel `q`: boundary pixels get the outline colour 0
(the outline is drawn after the fill), interior pixels (even-odd fill
rule) get 1, everything else keeps the background 0.  This models the
documented fill semantics; PIL's exact boundary-pixel convention
(Bresenham lines, half-open scanline spans) differs on fractional
borderline pixels, which no claim in this development touches. -/
def pilPolygonPixel (poly : List Point) (q : Point) : ℚ :=
  if (polygonEdges poly).any (fun e => onSegment q e.1 e.2) then 0
  else if ((polygonEdges poly).countP (fun e => edgeCrossesRay q e.1 e.2)) % 2 = 1 then 1
  else 0

/-- Embeds `Lung.create_mask_from_polygon` (utils.py lines 57-83): rasterize
each contour into a fresh binary scratch mask, accumulate the scratch
masks by `+=`, and clip the accumulated mask to `{0, 1}`.  The Python
code draws on a PIL image of size `image_shape` and transposes the
resulting array before accumulating, which exactly cancels PIL's
`(column, row)` addressing, so pixel `(i, j)` of the result corresponds
to polygon coordinate `(i, j)`; the model therefore samples the polygon
at `(i, j)` directly.  PIL's `polygon` raises when a contour has fewer
than 2 coordinates; for 2 or more (even degenerate collinear ones) it
draws without complaint.  The `uint8` accumulator cannot overflow below
256 contours, and the final `np.clip(lung_mask, 0, 1)` is `min 1` on
the nonnegative sum. -/
def create_mask_from_polygon (m n : ℕ) (contours : List Contour) :
    Except PyError (Fin m → Fin n → ℚ) :=
  if contours.any (fun c => c.length < 2) then .error .pilTooFewCoords
  else .ok (fun i j =>
    np_clip ((contours.map (fun c => pilPolygonPixel c (((i : ℕ) : ℚ), ((j : ℕ) : ℚ)))).sum) 0 1)

/-- The nibabel image header fields that
`Lung.extract_pixel_dimensions` reads: `header["dim"]` (the pixel-grid
dimensions) and `header["pixdim"]` (the physical pixel spacings). -/
structure CtImg where
  dim : List ℤ
  pixdim : List ℚ

/-- Index of the first occurrence of the maximum of `x :: xs`, scanning
with a running best (index, value): a later element replaces the best
only when strictly larger. -/
def argmaxAux (best : ℕ × ℤ) (i : ℕ) : List ℤ → ℕ
  | [] => best.1
  | x :: xs => if best.2 < x then argmaxAux (i, x) (i + 1) xs else argmaxAux best (i + 1) xs

/-- Index of the first occurrence of the maximum of a list (0 for the
empty list). -/
def argmaxIdx : List ℤ → ℕ
  | [] => 0
  | x :: xs => argmaxAux (0, x) 1 xs

/-- Index of the first occurrence of the maximum of a list, ignoring
position `skip`. -/
def argmaxAuxExcl (skip : ℕ) : Option (ℕ × ℤ) → ℕ → List ℤ → ℕ
  | best, _, [] => (best.map Prod.fst).getD 0
  | best, i, x :: xs =>
    if i = skip then argmaxAuxExcl skip best (i + 1) xs
    else
      match best with
      | none => argmaxAuxExcl skip (some (i, x)) (i + 1) xs
      | some b =>
        if b.2 < x then argmaxAuxExcl skip (some (i, x)) (i + 1) xs
        else argmaxAuxExcl skip best (i + 1) xs

/-- Index of the first occurrence of the maximum of a list over the
positions other than `skip`. -/
def argmaxIdxExcl (l : List ℤ) (skip : ℕ) : ℕ :=
  argmaxAuxExcl skip none 0 l

/-- Embeds `Lung.extract_pixel_dimensions` (utils.py lines 185-207):
`np.argpartition(dim, -2)[-2:]` leaves the index of the second-largest
entry of `dim` at position `-2` and the index of the largest at `-1`,
so the function returns `[pixdim[second-largest index], pixdim[largest
index]]`.  numpy's introselect leaves the choice among tied entries
unspecified; this model breaks ties by first occurrence (every instance
used in a claim is either tie-free or has equal spacings on the tied
axes, so the tie-break never matters). -/
def extract_pixel_dimensions (ct_img : CtImg) : List ℚ :=
  let dim := ct_img.dim
  let i1 := argmaxIdx dim
  let i2 := argmaxIdxExcl dim i1
  [ct_img.pixdim.getD i2 0, ct_img.pixdim.getD i1 0]

/-- Embeds `Lung.compute_lung_area` (utils.py lines 164-183): clip the mask to
`[0, 1]` (`np.clip(binary_mask, 0, 1)`), then return the mask sum times
the product of the two extracted pixel dimensions. -/
def compute_lung_area (binary_mask : List (List ℚ)) (ct_img : CtImg) : ℚ :=
  let pixel_dimensions := extract_pixel_dimensions ct_img
  let clipped := binary_mask.map (List.map (fun v => np_clip v 0 1))
  ((clipped.map List.sum).sum) * (pixel_dimensions.getD 0 0 * pixel_dimensions.getD 1 0)

/-- The AreaCalculator as the specification words it (spec §4.5): any
nonzero mask value is clamped to 1 first, then the sum of the mask is
multiplied by `spacing_x * spacing_y`.  Stated only to be compared with
`compute_lung_area`, which is translated from the source. -/
def areaCalculatorSpec (binary_mask : List (List ℚ)) (sx sy : ℚ) : ℚ :=
  ((binary_mask.map (List.map (fun v => if v = 0 then 0 else 1))).map List.sum).sum * (sx * sy)

/-- A 2-D numpy array of shape `(m, n)`, addressed by index pairs. -/
abbrev Mat (m n : ℕ) : Type := Fin m → Fin n → ℚ

/-- Point update of a matrix: `a[x, y] = v`. -/
def matSet {m n : ℕ} (a : Mat m n) (x : Fin m) (y : Fin n) (v : ℚ) : Mat m n :=
  fun i j => if i = x ∧ j = y then v else a i j

/-- Models `np.nonzero(vessels)` paired up: the coordinates of the nonzero
entries in row-major order. -/
def nonzeroCoords {m n : ℕ} (a : Mat m n) : List (Fin m × Fin n) :=
  (List.finRange m).flatMap (fun i =>
    (List.finRange n).filterMap (fun j => if a i j ≠ 0 then some (i, j) else none))

/-- The inner test of `Vessel.denoise_vessels` (utils.py lines 242-249):
some point of `contour` lies within Euclidean distance 0.1 of the pixel
coordinate `coord`.  The Python computes
`np.sqrt((x_points - coord_x)**2 + (y_points - coord_y)**2) <= 0.1`;
since `sqrt` is monotone, the test is exactly `dx^2 + dy^2 ≤ 0.01`,
which is what the model evaluates (avoiding an irrational `sqrt`). -/
def nearContour {m n : ℕ} (contour : Contour) (coord : Fin m × Fin n) : Bool :=
  contour.any (fun p =>
    decide ((p.1 - ((coord.1 : ℕ) : ℚ)) ^ 2 + (p.2 - ((coord.2 : ℕ) : ℚ)) ^ 2 ≤ 1 / 100))

/-- Embeds `Vessel.denoise_vessels` (utils.py lines 225-251): record the
nonzero coordinates of `vessels` once, then for every lung contour and
every recorded coordinate, set the vessel pixel to 0 when some contour
point is within distance 0.1 of it.  The distance test reads only the
contour and the fixed coordinate list, never the partially-updated
array, so the fold faithfully reproduces the in-place loop. -/
def denoise_vessels {m n : ℕ} (lung_contours : List Contour) (vessels : Mat m n) : Mat m n :=
  let coords := nonzeroCoords vessels
  lung_contours.foldl
    (fun vs contour =>
      coords.foldl
        (fun vs2 coord =>
          if nearContour contour coord then matSet vs2 coord.1 coord.2 0 else vs2)
        vs)
    vessels

/-- Embeds `Vessel.create_vessel_mask` (utils.py lines 253-272):
`vessels = lung_mask * ct_numpy`; entries equal to 0 are remapped to the
sentinel −1000; entries ≥ −500 become 1; entries still < −500 become 0;
optionally the result is denoised.  Each numpy masked assignment is an
elementwise step, reproduced here as one `fun` per statement. -/
def create_vessel_mask {m n : ℕ} (lung_mask : Mat m n) (lungs_contour : List Contour)
    (ct_numpy : Mat m n) (denoise : Bool := false) : Mat m n :=
  let vessels0 : Mat m n := fun i j => lung_mask i j * ct_numpy i j
  let vessels1 : Mat m n := fun i j => if vessels0 i j = 0 then -1000 else vessels0 i j
  let vessels2 : Mat m n := fun i j => if vessels1 i j ≥ -500 then 1 else vessels1 i j
  let vessels3 : Mat m n := fun i j => if vessels2 i j < -500 then 0 else vessels2 i j
  if denoise then denoise_vessels lungs_contour vessels3 else vessels3

/-- A numpy floating-point scalar: a finite value (exact in this model)
or one of the IEEE special values that division can produce. -/
inductive NpFloat where
  | num : ℚ → NpFloat
  | posInf : NpFloat
  | negInf : NpFloat
  | nan : NpFloat
deriving DecidableEq

/-- IEEE-754 division of finite numpy floats, as numpy performs it for
`vessel_area / lung_area`: `0/0 = nan`, `x/0 = ±inf` for `x ≠ 0`
(numpy emits a `RuntimeWarning` but raises no exception), otherwise the
finite quotient. -/
def npDiv (a b : ℚ) : NpFloat :=
  if b = 0 then
    if a = 0 then .nan
    else if 0 < a then .posInf
    else .negInf
  else .num (a / b)

/-- IEEE-754 multiplication of a float by the finite constant 100, as in
`(...) * 100`: `nan` stays `nan`, infinities keep their sign (the
constant is positive). -/
def npMul100 : NpFloat → NpFloat
  | .num q => .num (q * 100)
  | .posInf => .posInf
  | .negInf => .negInf
  | .nan => .nan

/-- The ratio computation of `VesselVolumeAnalyzer.process_image`
(segment_vessels.py line 45): `ratio = (vessel_area / lung_area) * 100`,
an unguarded float division. -/
def ratio_of_areas (vessel_area lung_area : ℚ) : NpFloat :=
  npMul100 (npDiv vessel_area lung_area)

/-- The batch loop shared by `VesselVolumeAnalyzer.analyze_images`
(segment_vessels.py lines 50-63) and `LungVolumeAnalyzer.analyze_images`
(segment_lungs.py lines 36-49): iterate over the sorted input paths,
process each slice, and append its measurement row; the CSV is written
from the accumulated rows only after the loop finishes.  The loop body
contains no `try`/`except`, so an exception from processing one slice
propagates immediately: the model returns that error and the rows
collected so far are discarded, exactly as the Python run dies before
reaching the CSV write. -/
def analyze_images {σ ε ρ : Type} (process : σ → Except ε ρ) : List σ → Except ε (List ρ)
  | [] => .ok []
  | p :: rest =>
    match process p with
    | .error e => .error e
    | .ok row =>
      match analyze_images process rest with
      | .error e => .error e
      | .ok rows => .ok (row :: rows)

/-- Scenario B data: a closed axis-aligned 50×60 rectangle contour with
convex-hull area 3000. -/
def rectA : Contour := [(0, 0), (50, 0), (50, 60), (0, 60), (0, 0)]

/-- Scenario B data: a closed 250×200 rectangle contour with convex-hull
area 50000, disjoint from `rectA`. -/
def rectB : Contour := [(100, 0), (350, 0), (350, 200), (100, 200), (100, 0)]

/-- A third closed rectangle contour (50×50, hull area 2500), used to
build batches in which more than two contours qualify. -/
def rectC : Contour := [(0, 100), (50, 100), (50, 150), (0, 150), (0, 100)]

/-- Scenario E data: a contour with only 2 points. -/
def twoPointContour : Contour := [(0, 0), (5, 5)]

/-- Scenario A input: a 10×10 slice of value −1020 with a filled 4×4
square of value −200 at rows and columns 3..6. -/
def scenarioA_slice : List (List ℚ) :=
  (List.range 10).map (fun i => (List.range 10).map (fun j =>
    if 3 ≤ i ∧ i ≤ 6 ∧ 3 ≤ j ∧ j ≤ 6 then -200 else -1020))

/-- Scenario A expected output: 1 inside the square, 0 outside. -/
def scenarioA_expected : List (List ℚ) :=
  (List.range 10).map (fun i => (List.range 10).map (fun j =>
    if 3 ≤ i ∧ i ≤ 6 ∧ 3 ≤ j ∧ j ≤ 6 then (1 : ℚ) else 0))

/-- Scenario C data: a 3×3 all-ones binary mask. -/
def mask3x3 : List (List ℚ) := [[1, 1, 1], [1, 1, 1], [1, 1, 1]]

/-- Scenario C metadata: a 2-D 3×3 image with pixel spacing 0.7 on both
in-plane axes (nibabel-style 8-entry `dim`/`pixdim` header fields). -/
def ctHeaderC : CtImg :=
  ⟨[2, 3, 3, 1, 1, 1, 1, 1], [1, 7/10, 7/10, 1, 1, 1, 1, 1]⟩

/-- Metadata for a 1×1 image with unit spacings. -/
def ctHeaderUnit : CtImg :=
  ⟨[2, 1, 1, 1, 1, 1, 1, 1], [1, 1, 1, 1, 1, 1, 1, 1]⟩

/-- Metadata with distinct in-plane grid sizes (5 on declared axis 1,
4 on declared axis 2) and distinguishable spacings 11 and 13, to expose
the order in which the spacings are returned. -/
def ctHeaderAsym : CtImg :=
  ⟨[2, 5, 4, 1, 1, 1, 1, 1], [1, 11, 13, 1, 1, 1, 1, 1]⟩

/-- The proposition `qualifies` decides. -/
theorem qualifies_iff (mv : ℚ) (c : Contour) :
    qualifies mv c = true ↔ (mv < hullVol c ∧ is_closed_contour c = true) := by
  simp [qualifies]

/-- When every hull computation on the batch succeeds, the selection
comprehension of `find_lung_contours` returns exactly the qualifying
contours paired with their hull volumes, in input order. -/
theorem selectContours_eq_ok (mv : ℚ) (l : List Contour)
    (hok : ∀ c ∈ l, (convexHullVolume c).isOk = true) :
    selectContours mv l = .ok ((qualifying mv l).map (fun c => (c, hullVol c))) := by
  induction l with
  | nil => simp [selectContours, qualifying]
  | cons c rest ih =>
    have hc := hok c (List.mem_cons_self c rest)
    obtain ⟨v, hv⟩ : ∃ v, convexHullVolume c = .ok v := by
      cases hcv : convexHullVolume c with
      | ok v => exact ⟨v, rfl⟩
      | error e => rw [hcv] at hc; simp [Except.isOk, Except.toBool] at hc
    have hrest := ih (fun x hx => hok x (List.mem_cons_of_mem _ hx))
    have hvol : hullVol c = v := by simp [hullVol, hv, Except.toOption]
    by_cases hq : mv < v ∧ is_closed_contour c = true
    · simp only [selectContours, hv, hrest, qualifying, List.filter_cons]
      rw [if_pos hq, if_pos (by rw [qualifies_iff, hvol]; exact hq)]
      simp only [List.map_cons, hvol]
    · simp only [selectContours, hv, hrest, qualifying, List.filter_cons]
      rw [if_neg hq, if_neg (by rw [qualifies_iff, hvol]; exact hq)]

/-- Membership in `nonzeroCoords` is exactly nonzeroness of the entry. -/
theorem mem_nonzeroCoords {m n : ℕ} (a : Mat m n) (i : Fin m) (j : Fin n) :
    (i, j) ∈ nonzeroCoords a ↔ a i j ≠ 0 := by
  simp only [nonzeroCoords, List.mem_flatMap, List.mem_filterMap, List.mem_finRange, true_and]
  constructor
  · rintro ⟨i', j', h⟩
    by_cases h0 : a i' j' ≠ 0
    · rw [if_pos h0] at h
      obtain ⟨hi, hj⟩ := Prod.mk.injEq .. ▸ Option.some.injEq .. ▸ h
      exact hi ▸ hj ▸ h0
    · rw [if_neg h0] at h
      exact absurd h (by simp)
  · intro h0
    exact ⟨i, ⟨j, by rw [if_pos h0]⟩⟩

/-- The inner loop of `denoise_vessels` over the recorded coordinates:
pixel `(i, j)` ends up 0 exactly when it is one of the recorded
coordinates and lies near the contour; every other pixel keeps the
accumulator's value.  (The nearness test never reads the accumulator.) -/
theorem coordsFold_apply {m n : ℕ} (contour : Contour) (coords : List (Fin m × Fin n))
    (vs : Mat m n) (i : Fin m) (j : Fin n) :
    (coords.foldl
        (fun vs2 coord =>
          if nearContour contour coord then matSet vs2 coord.1 coord.2 0 else vs2)
        vs) i j
      = if (i, j) ∈ coords ∧ nearContour contour (i, j) = true then 0 else vs i j := by
  induction coords generalizing vs with
  | nil => simp
  | cons c cs ih =>
    rw [List.foldl_cons, ih]
    by_cases hcij : c = (i, j)
    · subst hcij
      by_cases hnear : nearContour contour (i, j) = true
      · simp [hnear, matSet, List.mem_cons, apply_ite (fun f : Mat m n => f i j)]
      · simp [hnear]
    · have hij : ¬((i, j) = c) := fun h => hcij h.symm
      have hne : ¬(i = c.1 ∧ j = c.2) := by
        rintro ⟨h1, h2⟩
        exact hcij (Prod.ext h1.symm h2.symm)
      simp [List.mem_cons, hij, matSet, hne, apply_ite (fun f : Mat m n => f i j)]

/-- The outer loop of `denoise_vessels` over the lung contours. -/
theorem contoursFold_apply {m n : ℕ} (contours : List Contour)
    (coords : List (Fin m × Fin n)) (vs : Mat m n) (i : Fin m) (j : Fin n) :
    (contours.foldl
        (fun vs1 contour =>
          coords.foldl
            (fun vs2 coord =>
              if nearContour contour coord then matSet vs2 coord.1 coord.2 0 else vs2)
            vs1)
        vs) i j
      = if (i, j) ∈ coords ∧ ∃ c ∈ contours, nearContour c (i, j) = true then 0
        else vs i j := by
  induction contours generalizing vs with
  | nil => simp
  | cons ct cts ih =>
    rw [List.foldl_cons, ih, coordsFold_apply]
    by_cases hmem : (i, j) ∈ coords
    · by_cases hex : ∃ c ∈ cts, nearContour c (i, j) = true
      · obtain ⟨c, hcmem, hcnear⟩ := hex
        have h1 : (i, j) ∈ coords ∧ ∃ c ∈ cts, nearContour c (i, j) = true :=
          ⟨hmem, ⟨c, hcmem, hcnear⟩⟩
        have h2 : (i, j) ∈ coords ∧ ∃ c ∈ ct :: cts, nearContour c (i, j) = true :=
          ⟨hmem, ⟨c, List.mem_cons_of_mem _ hcmem, hcnear⟩⟩
        rw [if_pos h1, if_pos h2]
      · have h1 : ¬((i, j) ∈ coords ∧ ∃ c ∈ cts, nearContour c (i, j) = true) :=
          fun h => hex h.2
        rw [if_neg h1]
        by_cases hct : nearContour ct (i, j) = true
        · have h2 : (i, j) ∈ coords ∧ nearContour ct (i, j) = true := ⟨hmem, hct⟩
          have h3 : (i, j) ∈ coords ∧ ∃ c ∈ ct :: cts, nearContour c (i, j) = true :=
            ⟨hmem, ⟨ct, List.mem_cons_self _ _, hct⟩⟩
          rw [if_pos h2, if_pos h3]
        · have h2 : ¬((i, j) ∈ coords ∧ nearContour ct (i, j) = true) := fun h => hct h.2
          have h3 : ¬((i, j) ∈ coords ∧ ∃ c ∈ ct :: cts, nearContour c (i, j) = true) := by
            rintro ⟨-, c, hc, hcn⟩
            rcases List.mem_cons.mp hc with h | h
            · exact hct (h ▸ hcn)
            · exact hex ⟨c, h, hcn⟩
          rw [if_neg h2, if_neg h3]
    · have h1 : ¬((i, j) ∈ coords ∧ ∃ c ∈ cts, nearContour c (i, j) = true) :=
        fun h => hmem h.1
      have h2 : ¬((i, j) ∈ coords ∧ nearContour ct (i, j) = true) := fun h => hmem h.1
      have h3 : ¬((i, j) ∈ coords ∧ ∃ c ∈ ct :: cts, nearContour c (i, j) = true) :=
        fun h => hmem h.1
      rw [if_neg h1, if_neg h2, if_neg h3]

/-- Pointwise description of `Vessel.denoise_vessels`: a pixel is zeroed
exactly when it was nonzero in the input and lies within distance 0.1 of
some point of some lung contour; every other pixel is untouched. -/
theorem denoise_vessels_apply {m n : ℕ} (lung_contours : List Contour) (vessels : Mat m n)
    (i : Fin m) (j : Fin n) :
    denoise_vessels lung_contours vessels i j
      = if vessels i j ≠ 0 ∧ ∃ c ∈ lung_contours, nearContour c (i, j) = true then 0
        else vessels i j := by
  unfold denoise_vessels
  rw [contoursFold_apply]
  simp only [mem_nonzeroCoords]

/-- C1 counterexample: at `lung_area = 0`, `vessel_area = 0` (Scenario
D), the ratio computation of `process_image` silently evaluates to NaN —
not an explicit undefined marker — so the claim that an explicit marker
is returned is false on the code. -/
theorem ratio_zero_zero_is_nan : ratio_of_areas 0 0 = NpFloat.nan := by
  simp [ratio_of_areas, npDiv, npMul100]

/-- C1 (amended): when the computed lung area is 0 the ratio line
`(vessel_area / lung_area) * 100` silently produces NaN (for vessel
area 0) or a signed infinity (for nonzero vessel area); the division
raises no exception (numpy only warns), and no undefined marker of any
kind exists in the code. -/
theorem ratio_of_areas_lung_area_zero (vessel_area : ℚ) :
    ratio_of_areas vessel_area 0
      = if vessel_area = 0 then NpFloat.nan
        else if 0 < vessel_area then NpFloat.posInf else NpFloat.negInf := by
  by_cases h0 : vessel_area = 0
  · simp [ratio_of_areas, npDiv, npMul100, h0]
  · by_cases hpos : 0 < vessel_area
    · simp [ratio_of_areas, npDiv, npMul100, h0, hpos]
    · simp [ratio_of_areas, npDiv, npMul100, h0, hpos]

/-- C2 counterexample: with exactly the two qualifying closed contours
of Scenario B (hull areas 3000 and 50000), `find_lung_contours` returns
BOTH contours — the 50000-area contour is not dropped, contradicting
the claim that only the 3000-area contour is returned. -/
theorem find_lung_contours_scenarioB_counterexample :
    find_lung_contours [rectA, rectB] 2000 = .ok [rectA, rectB]
    ∧ hullVol rectB = 50000 := by
  constructor
  · norm_num [rectA, rectB, find_lung_contours, selectContours, convexHullVolume, hullArea,
      monotoneChainHull, halfHull, chainStep, shoelace, lexLe, cross2, is_closed_contour]
  · norm_num [rectB, hullVol, convexHullVolume, hullArea, monotoneChainHull, halfHull,
      chainStep, shoelace, lexLe, cross2, Except.toOption]

/-- C2 (amended): with exactly two disjoint closed qualifying contours
of hull areas 3000 and 50000 and no third contour, `find_lung_contours`
takes the `len(selected_contours) <= 2` branch and returns both
contours unchanged (the passthrough rule); nothing is dropped. -/
theorem find_lung_contours_two_qualifying_passthrough :
    hullVol rectA = 3000 ∧ hullVol rectB = 50000
    ∧ is_closed_contour rectA = true ∧ is_closed_contour rectB = true
    ∧ qualifying 2000 [rectA, rectB] = [rectA, rectB]
    ∧ find_lung_contours [rectA, rectB] 2000 = .ok [rectA, rectB] := by
  refine ⟨?_, ?_, ?_, ?_, ?_, ?_⟩ <;>
    norm_num [rectA, rectB, find_lung_contours, selectContours, convexHullVolume, hullArea,
      monotoneChainHull, halfHull, chainStep, shoelace, lexLe, cross2, is_closed_contour,
      hullVol, Except.toOption, qualifying, qualifies, List.filter]

/-- C3 counterexample: rasterizing a single 2-point contour (Scenario
E) does not raise any degenerate-contour error — PIL's polygon call
accepts 2 coordinates and `create_mask_from_polygon` silently returns a
mask — contradicting the claim that the rasterization path raises. -/
theorem rasterize_two_point_contour_succeeds :
    ∃ mask : Fin 10 → Fin 10 → ℚ,
      create_mask_from_polygon 10 10 [twoPointContour] = .ok mask := by
  have hcond : ¬(([twoPointContour].any (fun x => x.length < 2)) = true) := by
    simp [twoPointContour]
  unfold create_mask_from_polygon
  rw [if_neg hcond]
  exact ⟨_, rfl⟩

/-- C3 (amended): for a contour with 2 points the hull computation in
`find_lung_contours` raises — but it is an uncaught third-party
`QhullError`, not a repository-defined degenerate-contour error (the
repository defines no error types) — while the rasterization path of
`create_mask_from_polygon` raises nothing and silently succeeds. -/
theorem degenerate_two_point_contour_paths (c : Contour) (m n : ℕ) (h2 : c.length = 2) :
    convexHullVolume c = .error .qhullNotEnoughPoints
    ∧ ∃ mask : Fin m → Fin n → ℚ, create_mask_from_polygon m n [c] = .ok mask := by
  constructor
  · simp [convexHullVolume, h2]
  · have hcond : ¬(([c].any (fun x => x.length < 2)) = true) := by simp [h2]
    unfold create_mask_from_polygon
    rw [if_neg hcond]
    exact ⟨_, rfl⟩

/-- Witness for the amended C3 theorem at Scenario E's concrete
two-point contour on a 10×10 image. -/
theorem degenerate_two_point_contour_paths_witness :
    convexHullVolume twoPointContour = .error .qhullNotEnoughPoints
    ∧ ∃ mask : Fin 10 → Fin 10 → ℚ,
        create_mask_from_polygon 10 10 [twoPointContour] = .ok mask :=
  degenerate_two_point_contour_paths twoPointContour 10 10 rfl

/-- C4 counterexample: a batch of two slices in which the first slice's
contour set contains a degenerate contour and the second is perfectly
processable: the batch loop aborts with the first slice's error; the
second slice is never processed and no row (with or without an error
marker) is recorded — contradicting the catch-and-continue claim. -/
theorem analyze_images_abort_counterexample :
    analyze_images (fun contours => find_lung_contours contours 2000)
        [[twoPointContour], [rectA]] = .error .qhullNotEnoughPoints
    ∧ find_lung_contours [rectA] 2000 = .ok [rectA] := by
  constructor
  · simp [analyze_images, find_lung_contours, selectContours, convexHullVolume, twoPointContour]
  · norm_num [rectA, find_lung_contours, selectContours, convexHullVolume, hullArea,
      monotoneChainHull, halfHull, chainStep, shoelace, lexLe, cross2, is_closed_contour]

/-- C4 (amended): the batch loops of both analyzers contain no exception
handling: the first slice whose processing fails aborts the whole batch
with that error, discarding the rows of all previously successful
slices and never reaching the remaining ones (or the CSV write). -/
theorem analyze_images_aborts_on_first_failure {σ ε ρ : Type} (process : σ → Except ε ρ)
    (pre : List σ) (s : σ) (post : List σ) (e : ε)
    (hpre : ∀ x ∈ pre, (process x).isOk = true) (hs : process s = .error e) :
    analyze_images process (pre ++ s :: post) = .error e := by
  induction pre with
  | nil => simp [analyze_images, hs]
  | cons x xs ih =>
    have hx := hpre x (List.mem_cons_self x xs)
    obtain ⟨row, hrow⟩ : ∃ row, process x = .ok row := by
      cases hpx : process x with
      | ok r => exact ⟨r, rfl⟩
      | error e2 => rw [hpx] at hx; simp [Except.isOk, Except.toBool] at hx
    have ih2 := ih (fun y hy => hpre y (List.mem_cons_of_mem _ hy))
    simp [analyze_images, hrow, ih2]

/-- Witness for the amended C4 theorem: a successful slice followed by
a failing one; the whole batch returns the failure. -/
theorem analyze_images_aborts_witness :
    analyze_images (fun contours => find_lung_contours contours 2000)
        ([[rectA]] ++ [twoPointContour] :: []) = .error .qhullNotEnoughPoints :=
  analyze_images_aborts_on_first_failure
    (fun contours => find_lung_contours contours 2000)
    [[rectA]] [twoPointContour] [] .qhullNotEnoughPoints
    (by
      intro x hx
      have hxe : x = [rectA] := by simpa using hx
      subst hxe
      norm_num [rectA, find_lung_contours, selectContours, convexHullVolume, hullArea,
        monotoneChainHull, halfHull, chainStep, shoelace, lexLe, cross2, is_closed_contour,
        Except.isOk, Except.toBool])
    (by simp [find_lung_contours, selectContours, convexHullVolume, twoPointContour])

/-- Scenario A evaluated: thresholding the 10×10 slice with band
[−1000, −300] marks exactly the 4×4 square. -/
theorem scenarioA_eval :
    clip_and_binarize_ct scenarioA_slice (-1000) (-300) = scenarioA_expected := by
  unfold clip_and_binarize_ct scenarioA_slice scenarioA_expected
  rw [List.map_map]
  refine List.map_congr_left (fun i _ => ?_)
  simp only [Function.comp_apply, List.map_map]
  refine List.map_congr_left (fun j _ => ?_)
  by_cases hij : 3 ≤ i ∧ i ≤ 6 ∧ 3 ≤ j ∧ j ≤ 6
  · rw [Function.comp_apply, if_pos hij, if_pos hij, if_pos (by norm_num [np_clip])]
  · rw [Function.comp_apply, if_neg hij, if_neg hij, if_neg (by norm_num [np_clip])]

/-- C6 (amended): for any band with `lower_bound < upper_bound` the
thresholder equals the pointwise map sending a pixel to 1 exactly when
its original intensity is ≥ `upper_bound` (this also shows the output
has the input's shape, being a `map` of a `map`); when
`lower_bound = upper_bound` the clipped value equals `upper_bound`
everywhere, so the ≥-characterization fails there (see the
counterexample).  Scenario A holds. -/
theorem clip_and_binarize_ct_spec (ct_numpy : List (List ℚ)) (lower_bound upper_bound : ℚ)
    (h : lower_bound < upper_bound) :
    clip_and_binarize_ct ct_numpy lower_bound upper_bound
      = ct_numpy.map (List.map (fun v => if upper_bound ≤ v then 1 else 0))
    ∧ clip_and_binarize_ct scenarioA_slice (-1000) (-300) = scenarioA_expected := by
  refine ⟨?_, scenarioA_eval⟩
  unfold clip_and_binarize_ct
  have hfun : (fun v : ℚ => if np_clip v lower_bound upper_bound = upper_bound then (1 : ℚ) else 0)
      = fun v : ℚ => if upper_bound ≤ v then 1 else 0 := by
    funext v
    by_cases hv : upper_bound ≤ v
    · have hclip : np_clip v lower_bound upper_bound = upper_bound := by
        unfold np_clip
        rw [max_eq_right (le_trans h.le hv), min_eq_left hv]
      rw [if_pos hclip, if_pos hv]
    · have hclip : np_clip v lower_bound upper_bound ≠ upper_bound := by
        unfold np_clip
        push_neg at hv
        rcases le_total lower_bound v with h1 | h1
        · rw [max_eq_right h1, min_eq_right hv.le]
          exact ne_of_lt hv
        · rw [max_eq_left h1, min_eq_right h.le]
          exact ne_of_lt h
      rw [if_neg hclip, if_neg hv]
  rw [hfun]

/-- Witness for the amended C6 theorem at Scenario A's slice and the
band [−1000, −300]. -/
theorem clip_and_binarize_ct_spec_witness :
    ((-1000 : ℚ) < -300)
    ∧ (clip_and_binarize_ct scenarioA_slice (-1000) (-300)
          = scenarioA_slice.map (List.map (fun v => if (-300 : ℚ) ≤ v then 1 else 0))
        ∧ clip_and_binarize_ct scenarioA_slice (-1000) (-300) = scenarioA_expected) :=
  ⟨by norm_num, clip_and_binarize_ct_spec scenarioA_slice (-1000) (-300) (by norm_num)⟩

/-- C6 counterexample: with the degenerate band
`lower_bound = upper_bound = -300`, clipping collapses every value to
−300, so a pixel of original intensity −1020 (strictly below the upper
bound) is mapped to 1 — the claimed equivalence with "original
intensity ≥ upper" fails. -/
theorem clip_and_binarize_ct_degenerate_band_counterexample :
    clip_and_binarize_ct [[-1020]] (-300) (-300) = [[1]] ∧ ¬((-300 : ℚ) ≤ -1020) := by
  constructor
  · norm_num [clip_and_binarize_ct, np_clip]
  · norm_num

/-- C7 (amended): `compute_lung_area` clips mask values into the
interval [0, 1] (`np.clip(binary_mask, 0, 1)`), which agrees with the
specification's "clamp any nonzero value to 1" exactly when the mask
values are natural numbers (as all masks produced by this pipeline
are); on such masks the area is the nonzero-pixel count times the
product of the two extracted spacings.  Scenario C evaluates to 4.41,
and the extracted spacing pair is ordered [second-largest-dimension
spacing, largest-dimension spacing], not declared order. -/
theorem compute_lung_area_spec (binary_mask : List (List ℚ)) (ct_img : CtImg)
    (hnat : ∀ row ∈ binary_mask, ∀ v ∈ row, ∃ k : ℕ, v = (k : ℚ)) :
    compute_lung_area binary_mask ct_img
      = areaCalculatorSpec binary_mask ((extract_pixel_dimensions ct_img).getD 0 0)
          ((extract_pixel_dimensions ct_img).getD 1 0)
    ∧ compute_lung_area mask3x3 ctHeaderC = 441 / 100
    ∧ extract_pixel_dimensions ctHeaderAsym = [13, 11] := by
  refine ⟨?_, ?_, ?_⟩
  · unfold compute_lung_area areaCalculatorSpec
    have hmaps : binary_mask.map (List.map (fun v => np_clip v 0 1))
        = binary_mask.map (List.map (fun v : ℚ => if v = 0 then 0 else 1)) := by
      refine List.map_congr_left (fun row hrow => ?_)
      refine List.map_congr_left (fun v hv => ?_)
      obtain ⟨k, rfl⟩ := hnat row hrow v hv
      cases k with
      | zero => norm_num [np_clip]
      | succ k2 =>
        have h1 : (1 : ℚ) ≤ ((k2 + 1 : ℕ) : ℚ) := by exact_mod_cast Nat.succ_le_succ (Nat.zero_le k2)
        have h0 : ((k2 + 1 : ℕ) : ℚ) ≠ 0 := Nat.cast_ne_zero.mpr (Nat.succ_ne_zero k2)
        rw [if_neg h0]
        unfold np_clip
        rw [max_eq_right (le_trans zero_le_one h1), min_eq_left h1]
    rw [hmaps]
  · norm_num [compute_lung_area, mask3x3, ctHeaderC, extract_pixel_dimensions,
      argmaxIdx, argmaxAux, argmaxIdxExcl, argmaxAuxExcl, np_clip]
  · norm_num [extract_pixel_dimensions, ctHeaderAsym,
      argmaxIdx, argmaxAux, argmaxIdxExcl, argmaxAuxExcl]

/-- Witness for the amended C7 theorem at Scenario C's all-ones 3×3
mask and 0.7×0.7 spacing header. -/
theorem compute_lung_area_spec_witness :
    (compute_lung_area mask3x3 ctHeaderC
        = areaCalculatorSpec mask3x3 ((extract_pixel_dimensions ctHeaderC).getD 0 0)
            ((extract_pixel_dimensions ctHeaderC).getD 1 0)
      ∧ compute_lung_area mask3x3 ctHeaderC = 441 / 100
      ∧ extract_pixel_dimensions ctHeaderAsym = [13, 11]) :=
  compute_lung_area_spec mask3x3 ctHeaderC
    (by
      intro row hrow v hv
      have hr : row = [1, 1, 1] := by simpa [mask3x3] using hrow
      subst hr
      have hv1 : v = 1 := by simpa using hv
      exact ⟨1, by simpa using hv1⟩)

/-- C7 counterexample: the code clips mask values into [0, 1] rather
than clamping every nonzero value to 1 — a mask entry 1/2 contributes
1/2, not 1, to the area; and with distinct in-plane dimensions the
spacing pair comes out ordered by dimension size (second-largest
first), not in declared axis order. -/
theorem compute_lung_area_clamp_counterexample :
    compute_lung_area [[1/2]] ctHeaderUnit = 1/2
    ∧ areaCalculatorSpec [[1/2]] ((extract_pixel_dimensions ctHeaderUnit).getD 0 0)
        ((extract_pixel_dimensions ctHeaderUnit).getD 1 0) = 1
    ∧ ((1 : ℚ)/2 ≠ 1)
    ∧ extract_pixel_dimensions ctHeaderAsym = [13, 11]
    ∧ ([13, 11] : List ℚ) ≠ [11, 13] := by
  refine ⟨?_, ?_, by norm_num, ?_, by norm_num⟩
  · norm_num [compute_lung_area, ctHeaderUnit, extract_pixel_dimensions,
      argmaxIdx, argmaxAux, argmaxIdxExcl, argmaxAuxExcl, np_clip, List.getD]
    rfl
  · norm_num [areaCalculatorSpec, ctHeaderUnit, extract_pixel_dimensions,
      argmaxIdx, argmaxAux, argmaxIdxExcl, argmaxAuxExcl, List.getD]
    rfl
  · norm_num [extract_pixel_dimensions, ctHeaderAsym,
      argmaxIdx, argmaxAux, argmaxIdxExcl, argmaxAuxExcl]

/-- C8: `denoise_vessels` zeroes exactly the nonzero vessel pixels that
lie within Euclidean distance 0.1 (in pixel-index units) of at least
one point of at least one lung contour, changes no other pixel, and —
since vessel-mask values are nonnegative — its output is pixel-wise ≤
its input for any contour set. -/
theorem denoise_vessels_spec {m n : ℕ} (lung_contours : List Contour) (vessels : Mat m n)
    (hnn : ∀ i j, 0 ≤ vessels i j) :
    (∀ (i : Fin m) (j : Fin n),
        denoise_vessels lung_contours vessels i j
          = if vessels i j ≠ 0 ∧ ∃ c ∈ lung_contours, nearContour c (i, j) = true then 0
            else vessels i j)
    ∧ (∀ (i : Fin m) (j : Fin n),
        denoise_vessels lung_contours vessels i j ≤ vessels i j) := by
  refine ⟨fun i j => denoise_vessels_apply lung_contours vessels i j, fun i j => ?_⟩
  rw [denoise_vessels_apply]
  by_cases h : vessels i j ≠ 0 ∧ ∃ c ∈ lung_contours, nearContour c (i, j) = true
  · rw [if_pos h]
    exact hnn i j
  · rw [if_neg h]

/-- A 1×1 all-ones vessel mask used to witness the denoiser claims. -/
def vesselsW : Mat 1 1 := fun _ _ => 1

/-- Witness for the C8 theorem on a 1×1 mask and a one-point contour at
the pixel itself. -/
theorem denoise_vessels_spec_witness :
    (∀ (i : Fin 1) (j : Fin 1),
        denoise_vessels [[(0, 0)]] vesselsW i j
          = if vesselsW i j ≠ 0 ∧ ∃ c ∈ [[((0 : ℚ), (0 : ℚ))]], nearContour c (i, j) = true then 0
            else vesselsW i j)
    ∧ (∀ (i : Fin 1) (j : Fin 1),
        denoise_vessels [[(0, 0)]] vesselsW i j ≤ vesselsW i j) :=
  denoise_vessels_spec [[(0, 0)]] vesselsW (fun _ _ => by norm_num [vesselsW])

/-- C10: a pixel inside the lung mask whose raw CT intensity is exactly
0 satisfies the ≥ −500 vessel intensity test, yet `create_vessel_mask`
classifies it as non-vessel: `lung_mask * ct` is 0 there, so the
`vessels[vessels == 0] = -1000` sentinel remap (meant for outside-mask
pixels) hits it and the subsequent thresholds send it to 0 — with or
without denoising. -/
theorem create_vessel_mask_zero_intensity {m n : ℕ} (lung_mask ct_numpy : Mat m n)
    (lungs_contour : List Contour) (denoise : Bool) (i : Fin m) (j : Fin n)
    (hmask : lung_mask i j = 1) (hct : ct_numpy i j = 0) :
    ct_numpy i j ≥ -500
    ∧ create_vessel_mask lung_mask lungs_contour ct_numpy denoise i j = 0 := by
  constructor
  · rw [hct]; norm_num
  · unfold create_vessel_mask
    cases denoise with
    | false => norm_num [hmask, hct]
    | true =>
      simp only [Bool.ite_eq_true_distrib, if_true]
      rw [denoise_vessels_apply]
      norm_num [hmask, hct]

/-- A 1×1 lung mask that is 1 everywhere, for the C10 witness. -/
def lungMaskW : Mat 1 1 := fun _ _ => 1

/-- A 1×1 CT slice that is 0 everywhere, for the C10 witness. -/
def ctW : Mat 1 1 := fun _ _ => 0

/-- Witness for the C10 theorem at a concrete in-mask zero-intensity
pixel (with denoising enabled, as `process_image` calls it). -/
theorem create_vessel_mask_zero_intensity_witness :
    ctW 0 0 ≥ -500 ∧ create_vessel_mask lungMaskW [] ctW true 0 0 = 0 :=
  create_vessel_mask_zero_intensity lungMaskW ctW [] true 0 0 rfl rfl

instance : IsTotal (Contour × ℚ) (fun a b => a.2 ≤ b.2) :=
  ⟨fun a b => le_total a.2 b.2⟩

instance : IsTrans (Contour × ℚ) (fun a b => a.2 ≤ b.2) :=
  ⟨fun _ _ _ h1 h2 => le_trans h1 h2⟩

/-- The `(contour, volume)` pairs the selection comprehension retains
when every hull computation succeeds. -/
def volPairs (min_volume : ℚ) (contours : List Contour) : List (Contour × ℚ) :=
  (qualifying min_volume contours).map (fun c => (c, hullVol c))

/-- Those pairs sorted ascending by volume, as `find_lung_contours`
sorts them. -/
def sortedPairs (min_volume : ℚ) (contours : List Contour) : List (Contour × ℚ) :=
  List.insertionSort (fun a b => a.2 ≤ b.2) (volPairs min_volume contours)

/-- With every hull computation succeeding and more than 2 qualifying
contours, `find_lung_contours` returns the sorted qualifying contours
with the last (largest-volume) one dropped. -/
theorem find_lung_contours_eq_of_ok (contours : List Contour) (min_volume : ℚ)
    (hok : ∀ c ∈ contours, (convexHullVolume c).isOk = true)
    (hlen : 2 < (qualifying min_volume contours).length) :
    find_lung_contours contours min_volume
      = .ok (((sortedPairs min_volume contours).dropLast).map Prod.fst) := by
  unfold find_lung_contours
  simp only [selectContours_eq_ok min_volume contours hok]
  rw [if_pos (by simpa using hlen)]
  rfl

/-- Erasing a retained pair and projecting back to contours is erasing
the contour. -/
theorem map_fst_erase_pair (l : List Contour) (m : Contour) :
    ((l.map (fun c => (c, hullVol c))).erase (m, hullVol m)).map Prod.fst = l.erase m := by
  induction l with
  | nil => simp
  | cons a as ih =>
    by_cases ham : a = m
    · subst ham
      rw [List.map_cons, List.erase_cons_head, List.erase_cons_head, List.map_map]
      simp [Function.comp_def]
    · have hpair : ¬(((a, hullVol a) : Contour × ℚ) = (m, hullVol m)) := by
        intro h
        exact ham (congrArg Prod.fst h)
      rw [List.map_cons, List.erase_cons_tail, List.erase_cons_tail, List.map_cons, ih]
      · simp [ham]
      · simp [hpair]

/-- The structural product `BEq` instance on `Contour × ℚ` coincides
with the one derived from decidable equality (`List.Perm.erase`
introduces the latter; direct elaboration uses the former). -/
theorem beq_prod_decEq :
    (instBEqProd : BEq (Contour × ℚ))
      = @instBEqOfDecidableEq (Contour × ℚ) inferInstance :=
  congr_arg BEq.mk <| by
    funext x y
    show (x == y) = _
    rw [Bool.eq_iff_iff, @beq_iff_eq _ (_), decide_eq_true_iff]

/-- C5 (amended): for a ContourSet in which every contour admits a
convex hull (at least 3 points, not all collinear — otherwise the
uncaught `QhullError` aborts the call, see the counterexample), if more
than 2 contours qualify and the qualifying hull volumes are pairwise
distinct, then `find_lung_contours` succeeds and returns exactly the
qualifying contours minus the single one of maximum hull volume. -/
theorem find_lung_contours_drops_unique_largest
    (contours : List Contour) (min_volume : ℚ)
    (hok : ∀ c ∈ contours, (convexHullVolume c).isOk = true)
    (hlen : 2 < (qualifying min_volume contours).length)
    (hdist : (qualifying min_volume contours).Pairwise (fun a b => hullVol a ≠ hullVol b)) :
    ∃ m ∈ qualifying min_volume contours,
      (∀ c ∈ qualifying min_volume contours, c ≠ m → hullVol c < hullVol m)
      ∧ ∃ l, find_lung_contours contours min_volume = .ok l
          ∧ l.Perm ((qualifying min_volume contours).erase m) := by
  classical
  have hperm : (sortedPairs min_volume contours).Perm (volPairs min_volume contours) :=
    List.perm_insertionSort _ _
  have hlvp : (volPairs min_volume contours).length
      = (qualifying min_volume contours).length := List.length_map _ _
  have hslen : 2 < (sortedPairs min_volume contours).length := by
    rw [hperm.length_eq, hlvp]
    exact hlen
  have hsne : sortedPairs min_volume contours ≠ [] := by
    intro h
    rw [h] at hslen
    simp at hslen
  obtain ⟨mp, hmp⟩ : ∃ mp, (sortedPairs min_volume contours).getLast hsne = mp := ⟨_, rfl⟩
  have hsplit : (sortedPairs min_volume contours).dropLast ++ [mp]
      = sortedPairs min_volume contours := by
    rw [← hmp]
    exact List.dropLast_append_getLast hsne
  have hfinj : Function.Injective (fun c : Contour => (c, hullVol c)) := by
    intro a b hab
    exact congrArg Prod.fst hab
  have hqnd : (qualifying min_volume contours).Nodup :=
    hdist.imp (fun hab he => hab (by rw [he]))
  have hvpnd : (volPairs min_volume contours).Nodup := List.Nodup.map hfinj hqnd
  have hsnd : (sortedPairs min_volume contours).Nodup := hperm.symm.nodup hvpnd
  have hmnotin : mp ∉ (sortedPairs min_volume contours).dropLast := by
    have hnd2 : ((sortedPairs min_volume contours).dropLast ++ [mp]).Nodup := by
      rw [hsplit]
      exact hsnd
    rcases List.nodup_append.mp hnd2 with ⟨-, -, hdisj⟩
    exact fun hm => hdisj hm (by simp)
  have hsorted : List.Pairwise (fun a b : Contour × ℚ => a.2 ≤ b.2)
      ((sortedPairs min_volume contours).dropLast ++ [mp]) := by
    rw [hsplit]
    exact List.sorted_insertionSort _ _
  have hmax : ∀ x ∈ (sortedPairs min_volume contours).dropLast, x.2 ≤ mp.2 := by
    rcases List.pairwise_append.mp hsorted with ⟨-, -, h3⟩
    exact fun x hx => h3 x hx _ (by simp)
  have hmem_mp : mp ∈ volPairs min_volume contours :=
    hperm.mem_iff.mp (hmp ▸ List.getLast_mem hsne)
  obtain ⟨m, hmq, hmf⟩ := List.mem_map.mp hmem_mp
  have hsymm : Symmetric (fun a b : Contour => hullVol a ≠ hullVol b) := by
    intro a b hab he
    exact hab he.symm
  refine ⟨m, hmq, ?_, ?_⟩
  · intro c hcq hcm
    have hcs : (c, hullVol c) ∈ sortedPairs min_volume contours :=
      hperm.mem_iff.mpr (List.mem_map_of_mem _ hcq)
    have hmem2 : (c, hullVol c) ∈ (sortedPairs min_volume contours).dropLast ++ [mp] := by
      rw [hsplit]
      exact hcs
    have hne : hullVol c ≠ hullVol m :=
      List.Pairwise.forall hsymm hdist hcq hmq hcm
    rcases List.mem_append.mp hmem2 with h | h
    · have hle : hullVol c ≤ mp.2 := hmax _ h
      rw [← hmf] at hle
      exact lt_of_le_of_ne hle hne
    · exfalso
      apply hcm
      have hch : ((c, hullVol c) : Contour × ℚ) = mp := by
        simpa using h
      have hcmp : ((c, hullVol c) : Contour × ℚ) = (m, hullVol m) := hch.trans hmf.symm
      exact congrArg Prod.fst hcmp
  · refine ⟨((sortedPairs min_volume contours).dropLast).map Prod.fst,
      find_lung_contours_eq_of_ok contours min_volume hok hlen, ?_⟩
    have h2 : (sortedPairs min_volume contours).erase mp
        = (sortedPairs min_volume contours).dropLast := by
      conv_lhs => rw [← hsplit]
      rw [List.erase_append_right _ hmnotin, List.erase_cons_head]
      simp
    have herase : ((volPairs min_volume contours).erase mp).Perm
        ((sortedPairs min_volume contours).dropLast) := by
      have h1 := (hperm.symm).erase mp
      rw [← beq_prod_decEq] at h1
      rw [h2] at h1
      exact h1
    have hpermdrop : ((sortedPairs min_volume contours).dropLast).Perm
        ((volPairs min_volume contours).erase (m, hullVol m)) := by
      rw [show ((m, hullVol m) : Contour × ℚ) = mp from hmf]
      exact herase.symm
    have hfinal := hpermdrop.map Prod.fst
    rw [show ((volPairs min_volume contours).erase (m, hullVol m)).map Prod.fst
        = (qualifying min_volume contours).erase m from map_fst_erase_pair _ m] at hfinal
    exact hfinal

/-- C5 counterexample: a ContourSet in which more than 2 contours
qualify (closed rectangles of pairwise-distinct hull areas 2500, 3000,
50000) but which also contains a degenerate two-point contour:
`find_lung_contours` does not return the qualifying contours minus the
largest — the comprehension evaluates the degenerate contour's hull and
the uncaught library error aborts the whole call. -/
theorem find_lung_contours_degenerate_batch_counterexample :
    (qualifying 2000 [rectC, rectA, rectB, twoPointContour]).length = 3
    ∧ find_lung_contours [rectC, rectA, rectB, twoPointContour] 2000
        = .error .qhullNotEnoughPoints := by
  constructor
  · norm_num [qualifying, qualifies, List.filter, rectA, rectB, rectC, twoPointContour,
      hullVol, convexHullVolume, hullArea, monotoneChainHull, halfHull, chainStep,
      shoelace, lexLe, cross2, is_closed_contour, Except.toOption]
  · norm_num [find_lung_contours, selectContours, rectA, rectB, rectC, twoPointContour,
      convexHullVolume, hullArea, monotoneChainHull, halfHull, chainStep, shoelace,
      lexLe, cross2, is_closed_contour]

/-- Witness for the amended C5 theorem on three qualifying rectangles
with distinct hull areas 2500, 3000 and 50000. -/
theorem find_lung_contours_drops_unique_largest_witness :
    ∃ m ∈ qualifying 2000 [rectC, rectA, rectB],
      (∀ c ∈ qualifying 2000 [rectC, rectA, rectB], c ≠ m → hullVol c < hullVol m)
      ∧ ∃ l, find_lung_contours [rectC, rectA, rectB] 2000 = .ok l
          ∧ l.Perm ((qualifying 2000 [rectC, rectA, rectB]).erase m) :=
  find_lung_contours_drops_unique_largest [rectC, rectA, rectB] 2000
    (by
      intro c hc
      have hc3 : c = rectC ∨ c = rectA ∨ c = rectB := by simpa using hc
      rcases hc3 with rfl | rfl | rfl <;>
        norm_num [rectA, rectB, rectC, convexHullVolume, hullArea, monotoneChainHull,
          halfHull, chainStep, shoelace, lexLe, cross2, Except.isOk, Except.toBool])
    (by
      norm_num [qualifying, qualifies, List.filter, rectA, rectB, rectC, hullVol,
        convexHullVolume, hullArea, monotoneChainHull, halfHull, chainStep, shoelace,
        lexLe, cross2, is_closed_contour, Except.toOption])
    (by
      norm_num [qualifying, qualifies, List.filter, rectA, rectB, rectC, hullVol,
        convexHullVolume, hullArea, monotoneChainHull, halfHull, chainStep, shoelace,
        lexLe, cross2, is_closed_contour, Except.toOption, List.pairwise_cons])
